import Mathlib

/-!
Verification of the core of `apple-mail-mcp` (file `apple_mail_mcp.py`):
the AppleScript execution engine `run_applescript` and the result parser
`parse_email_list`, together with a small trace model of the process-wide
`_applescript_lock` that serializes interpreter invocations.

Python strings are modelled as `List Char` (one `Char` per Unicode code
point, matching CPython's `str` indexing and slicing).  `str.strip()` is
modelled by `pyStrip`, which removes the standard ASCII whitespace
characters handled by Python's `strip` (space, tab, newline, carriage
return, vertical tab, form feed); none of the other Unicode whitespace
characters occur in the formats under study.
-/

/-- Whitespace predicate used by `pyStrip`, matching the characters that
Python's `str.strip()` removes for the inputs relevant here. -/
def pyIsSpace (c : Char) : Bool :=
  c == ' ' || c == '\t' || c == '\n' || c == '\r' || c == '\x0b' || c == '\x0c'

/-- Remove leading whitespace (left part of Python `str.strip()`). -/
def ltrim (l : List Char) : List Char := l.dropWhile pyIsSpace

/-- Remove trailing whitespace (right part of Python `str.strip()`). -/
def rtrim (l : List Char) : List Char := (l.reverse.dropWhile pyIsSpace).reverse

/-- Model of Python `str.strip()`. -/
def pyStrip (l : List Char) : List Char := rtrim (ltrim l)

/-- Model of Python `str.startswith(p)`: `pyStartsWith p s` is true when
`p` is a prefix of `s`. -/
def pyStartsWith : List Char → List Char → Bool
  | [], _ => true
  | _ :: _, [] => false
  | a :: p, b :: s => (a == b) && pyStartsWith p s

/-- Model of Python `needle in hay` on strings (substring containment). -/
def listContains (needle : List Char) : List Char → Bool
  | [] => pyStartsWith needle []
  | c :: rest => pyStartsWith needle (c :: rest) || listContains needle rest

/-- Model of Python `text.split('\n')`: splits at every newline and keeps
empty pieces, so the result is always nonempty. -/
def splitNL : List Char → List (List Char)
  | [] => [[]]
  | c :: rest =>
    if c = '\n' then [] :: splitNL rest
    else
      match splitNL rest with
      | [] => [[c]]
      | l :: ls => (c :: l) :: ls

/-- Join lines with a newline separator (inverse of `splitNL` on
newline-free lines); used to build the serialized text for round trips. -/
def unlines : List (List Char) → List Char
  | [] => []
  | [l] => l
  | l :: ls => l ++ '\n' :: unlines ls

/-- Python `str.strip()` lifted to Lean `String`s (used for the engine's
`result.stdout.strip()`). -/
def pyStripStr (s : String) : String := String.mk (pyStrip s.data)

example : pyStrip "  hi there \n".data = "hi there".data := by decide
example : splitNL "a\nb\n".data = ["a".data, "b".data, [] ] := by decide
example : pyStartsWith "From:".data "From: x".data = true := by decide
example : listContains "ell".data "hello".data = true := by decide

/-!
## Result parser (`parse_email_list`, apple_mail_mcp.py lines 200-237)

The Python function accumulates a `current_email` dictionary while
scanning lines.  A dictionary over the five possible keys is modelled as
a structure of `Option` fields: a key is present exactly when the field
is `some`; dictionary equality (used by Python's `in` in the final
append guard) is structure equality.
-/

/-- One parsed email entry: the `current_email` / result-element
dictionary of `parse_email_list`.  `none` means the key is absent. -/
structure EmailRecord where
  subject : Option (List Char)
  is_read : Option Bool
  sender : Option (List Char)
  date : Option (List Char)
  preview : Option (List Char)
deriving DecidableEq, Repr

/-- The empty dictionary `{}` (falsy in Python). -/
def EmailRecord.emptyRec : EmailRecord := ⟨none, none, none, none, none⟩

/-- `'From:'` (5 characters; the code slices `line[5:]`). -/
def fromPfx : List Char := ['F', 'r', 'o', 'm', ':']

/-- `'Date:'` (5 characters; the code slices `line[5:]`). -/
def datePfx : List Char := ['D', 'a', 't', 'e', ':']

/-- `'Preview:'` (8 characters; the code slices `line[8:]`). -/
def prevPfx : List Char := ['P', 'r', 'e', 'v', 'i', 'e', 'w', ':']

/-- `'TOTAL EMAILS'`, the terminator sentinel. -/
def totalPfx : List Char := ['T', 'O', 'T', 'A', 'L', ' ', 'E', 'M', 'A', 'I', 'L', 'S']

/-- First guard of the loop body:
`not line or line.startswith('=') or line.startswith('━') or
line.startswith('📧') or line.startswith('⚠')`. -/
def isSkipLine (line : List Char) : Bool :=
  line.isEmpty || pyStartsWith ['='] line || pyStartsWith ['━'] line ||
    pyStartsWith ['📧'] line || pyStartsWith ['⚠'] line

/-- Record-start test: `line.startswith('✉') or line.startswith('✓')`. -/
def isStartLine (line : List Char) : Bool :=
  pyStartsWith ['✉'] line || pyStartsWith ['✓'] line

/-- `if current_email: emails.append(current_email)` (used both at a new
record-start line and at the terminator). -/
def pushIfNonEmpty (emails : List EmailRecord) (cur : EmailRecord) : List EmailRecord :=
  if cur ≠ EmailRecord.emptyRec then emails ++ [cur] else emails

/-- The post-loop guard
`if current_email and current_email not in emails: emails.append(current_email)`,
which also runs after the `break` on the terminator line. -/
def finalAppend (emails : List EmailRecord) (cur : EmailRecord) : List EmailRecord :=
  if cur ≠ EmailRecord.emptyRec ∧ cur ∉ emails then emails ++ [cur] else emails

/-- The scanning loop of `parse_email_list`, with the accumulated result
list `emails` and the open record `cur` made explicit.  Each arm mirrors
one branch of the Python `for` body; the `TOTAL EMAILS` arm models the
`break` (the post-loop guard still runs after a `break`). -/
def parseAux : List EmailRecord → EmailRecord → List (List Char) → List EmailRecord
  | emails, cur, [] => finalAppend emails cur
  | emails, cur, l :: rest =>
    let line := pyStrip l
    if isSkipLine line then parseAux emails cur rest
    else if isStartLine line then
      parseAux (pushIfNonEmpty emails cur)
        ⟨some (pyStrip (line.drop 2)), some (pyStartsWith ['✓'] line), none, none, none⟩ rest
    else if pyStartsWith fromPfx line then
      parseAux emails ⟨cur.subject, cur.is_read, some (pyStrip (line.drop 5)), cur.date, cur.preview⟩ rest
    else if pyStartsWith datePfx line then
      parseAux emails ⟨cur.subject, cur.is_read, cur.sender, some (pyStrip (line.drop 5)), cur.preview⟩ rest
    else if pyStartsWith prevPfx line then
      parseAux emails ⟨cur.subject, cur.is_read, cur.sender, cur.date, some (pyStrip (line.drop 8))⟩ rest
    else if pyStartsWith totalPfx line then
      finalAppend (pushIfNonEmpty emails cur) cur
    else parseAux emails cur rest

/-- `parse_email_list` on a list of already-split lines. -/
def parseLinesTop (lines : List (List Char)) : List EmailRecord :=
  parseAux [] EmailRecord.emptyRec lines

/-- `parse_email_list(output)`: split on newlines, then scan. -/
def parse_email_list (output : String) : List EmailRecord :=
  parseLinesTop (splitNL output.data)

example :
    parse_email_list "✉ Hello\n   From: a@b.com\n   Date: 2024-01-01\nTOTAL EMAILS: 1\n" =
      [⟨some "Hello".data, some false, some "a@b.com".data, some "2024-01-01".data, none⟩] := by
  decide

example :
    parse_email_list "✉ A\n✉ A" = [⟨some ['A'], some false, none, none, none⟩] := by
  decide

example :
    parse_email_list "✉ A\n✓ B" =
      [⟨some ['A'], some false, none, none, none⟩, ⟨some ['B'], some true, none, none, none⟩] := by
  decide

example :
    parse_email_list "From: a@b.com\n✉ A" =
      [⟨none, none, some "a@b.com".data, none, none⟩, ⟨some ['A'], some false, none, none, none⟩] := by
  decide

example : parse_email_list "" = [] := by decide

/-!
## Execution engine (`run_applescript`, apple_mail_mcp.py lines 129-197)

The body of the `async with _applescript_lock:` block is a `for attempt
in range(MAX_RETRIES)` loop.  Each iteration performs exactly one
interpreter invocation (`subprocess.run(['osascript', '-e', script], ...,
timeout=120)`); the attempt's effect at the call site is one of four
shapes, modelled by `AttemptResult`:

* the process completed, yielding a return code, stdout and stderr;
* `subprocess.TimeoutExpired` was raised;
* `FileNotFoundError` was raised (missing `osascript` binary);
* some other exception was raised.

The environment is modelled as an oracle `Nat → AttemptResult` giving the
result of the `attempt`-th invocation.  `run_applescript` then returns
the classified outcome, the number of interpreter invocations performed,
and the list of backoff sleeps executed (in seconds, in order).
-/

/-- `MAX_RETRIES = 3` (apple_mail_mcp.py line 30). -/
def MAX_RETRIES : Nat := 3

/-- `INITIAL_BACKOFF_SECONDS = 2` (apple_mail_mcp.py line 31). -/
def INITIAL_BACKOFF_SECONDS : Nat := 2

/-- Result of one `subprocess.run` invocation, as seen by the `try` body. -/
inductive AttemptResult where
  | completed (returncode : Int) (stdout stderr : String)
  | timedOut
  | fileNotFound
  | otherError (msg : String)
deriving DecidableEq, Repr

/-- Classified outcome of `run_applescript`: the returned string on
success, or the message of the exception that propagates out.
`loopFellThrough` is the post-loop `raise` at line 197 ("Should not
reach here, but just in case"). -/
inductive Outcome where
  | success (out : String)
  | scriptError (code : Int) (msg : String)
  | interpreterMissing (msg : String)
  | timeoutFailure (msg : String)
  | unknown (msg : String)
  | loopFellThrough (msg : String)
deriving DecidableEq, Repr

/-- What one call to `run_applescript` did: classified outcome, number of
interpreter invocations performed, and backoff sleeps in seconds. -/
structure RunResult where
  outcome : Outcome
  invocations : Nat
  waits : List Nat
deriving DecidableEq, Repr

/-- Message of the exception raised for a non-zero interpreter exit:
`f"AppleScript error (code {result.returncode}): {error_msg}"` with
`error_msg = result.stderr.strip() if result.stderr else "Unknown AppleScript error"`. -/
def scriptErrorText (rc : Int) (stderr : String) : String :=
  "AppleScript error (code " ++ toString rc ++ "): " ++
    (if stderr ≠ "" then pyStripStr stderr else "Unknown AppleScript error")

/-- Message raised after the final timed-out attempt (lines 180-183). -/
def timeoutFinalMsg : String :=
  "AppleScript execution timed out after " ++ toString MAX_RETRIES ++
    " attempts. Apple Mail may be unresponsive."

/-- Message raised on `FileNotFoundError` (line 187). -/
def missingInterpMsg : String :=
  "osascript not found. This tool requires macOS with AppleScript support."

/-- Opaque stand-in for `str(last_exception)` where the exception is the
`subprocess.TimeoutExpired`; its exact text never reaches a caller (the
path that would use it is proved unreachable). -/
def timeoutExcText : String := "Command timed out after 120 seconds"

/-- The retry loop of `run_applescript`.  `fuel` is the number of loop
iterations left (`MAX_RETRIES - attempt`), `attempt` the current index,
`waits` the sleeps performed so far, `lastExc` the Python
`last_exception` variable.  Branches, in source order:

* process completed, non-zero return code: the body raises the
  "AppleScript error" exception, which the generic handler re-raises
  unchanged (its text contains "AppleScript error") — one invocation,
  no retry;
* process completed, zero return code: return trimmed stdout;
* `TimeoutExpired`: sleep `INITIAL_BACKOFF_SECONDS * 2**attempt` and
  retry while `attempt < MAX_RETRIES - 1`, otherwise raise the final
  timeout message;
* `FileNotFoundError`: raise the missing-interpreter message (raised
  inside an `except` clause, so no sibling handler catches it);
* any other exception: re-raised unchanged if its text contains
  "AppleScript error", otherwise wrapped as
  `f"AppleScript execution failed: {e}"` — either way no retry. -/
def runLoop (oracle : Nat → AttemptResult) :
    Nat → Nat → List Nat → String → RunResult
  | 0, attempt, waits, lastExc =>
    ⟨.loopFellThrough ("AppleScript execution failed after " ++ toString MAX_RETRIES ++
        " attempts: " ++ lastExc), attempt, waits⟩
  | fuel + 1, attempt, waits, _lastExc =>
    match oracle attempt with
    | .completed rc out err =>
      if rc ≠ 0 then ⟨.scriptError rc (scriptErrorText rc err), attempt + 1, waits⟩
      else ⟨.success (pyStripStr out), attempt + 1, waits⟩
    | .timedOut =>
      if attempt < MAX_RETRIES - 1 then
        runLoop oracle fuel (attempt + 1)
          (waits ++ [INITIAL_BACKOFF_SECONDS * 2 ^ attempt]) timeoutExcText
      else ⟨.timeoutFailure timeoutFinalMsg, attempt + 1, waits⟩
    | .fileNotFound => ⟨.interpreterMissing missingInterpMsg, attempt + 1, waits⟩
    | .otherError m =>
      if listContains "AppleScript error".data m.data then ⟨.unknown m, attempt + 1, waits⟩
      else ⟨.unknown ("AppleScript execution failed: " ++ m), attempt + 1, waits⟩

/-- `run_applescript` under the oracle: the full retry sequence executed
inside the lock (`last_exception` starts as Python `None`). -/
def run_applescript (oracle : Nat → AttemptResult) : RunResult :=
  runLoop oracle MAX_RETRIES 0 [] "None"

/-- Whether an outcome is the post-loop fallback failure. -/
def Outcome.isFallback : Outcome → Bool
  | .loopFellThrough _ => true
  | _ => false

example :
    run_applescript (fun _ => .completed 0 "  out \n" "") =
      ⟨.success "out", 1, []⟩ := by decide

example :
    run_applescript (fun _ => .timedOut) = ⟨.timeoutFailure timeoutFinalMsg, 3, [2, 4]⟩ := by
  decide

example :
    run_applescript (fun i => if i < 2 then .timedOut else .completed 0 "ok" "") =
      ⟨.success "ok", 3, [2, 4]⟩ := by decide

example :
    run_applescript (fun _ => .completed 1 "" " boom ") =
      ⟨.scriptError 1 "AppleScript error (code 1): boom", 1, []⟩ := by decide

example :
    run_applescript (fun _ => .fileNotFound) = ⟨.interpreterMissing missingInterpMsg, 1, []⟩ := by
  decide

/-!
## Lock serialization model (`_applescript_lock`, line 27; `async with`, line 143)

Interleavings of concurrent `run_applescript` calls are modelled as
event traces.  Each logical call (task) follows the control skeleton of
the source: it first acquires the process-wide lock (`async with
_applescript_lock:` encloses the whole retry loop), then performs at
most `MAX_RETRIES` interpreter invocations (each delimited by a
`startInv`/`endInv` pair), and finally releases the lock — on every exit
path, since `async with` releases on return and on exception alike.
The only cross-task rule is the semantics of `asyncio.Lock`: `acq`
succeeds only when no task holds the lock.  `startInv` deliberately has
no lock-related precondition: that invocations are exclusive must be
(and is) *derived* from the acquire/release discipline.
-/

/-- Control location of one `run_applescript` call in the lock model:
not yet acquired, inside the `async with` block (with the number of
invocations already begun and whether one is in flight), or finished. -/
inductive Pc where
  | idle
  | locked (invs : Nat) (invOpen : Bool)
  | finished
deriving DecidableEq, Repr

/-- Events of the lock model, tagged by task id. -/
inductive EngEv where
  | acq (t : Nat)
  | startInv (t : Nat)
  | endInv (t : Nat)
  | rel (t : Nat)
deriving DecidableEq, Repr

/-- Global state: owner of `_applescript_lock` plus every task's control
location. -/
structure LockSys where
  holder : Option Nat
  pc : Nat → Pc

/-- Pointwise update of the task-location map. -/
def setPc (f : Nat → Pc) (t : Nat) (v : Pc) : Nat → Pc :=
  fun u => if u = t then v else f u

/-- One interleaving step; `none` when the event is not enabled.
`acq` requires the lock to be free (asyncio.Lock semantics) and the task
to be at its `async with`; `startInv` requires only that the task is
inside the block, between invocations, with attempts left; `endInv`
closes the open invocation; `rel` happens when the block is exited. -/
def lockStep (s : LockSys) : EngEv → Option LockSys
  | .acq t =>
    if s.pc t = .idle ∧ s.holder = none then some ⟨some t, setPc s.pc t (.locked 0 false)⟩
    else none
  | .startInv t =>
    match s.pc t with
    | .locked n false =>
      if n < MAX_RETRIES then some ⟨s.holder, setPc s.pc t (.locked (n + 1) true)⟩ else none
    | _ => none
  | .endInv t =>
    match s.pc t with
    | .locked n true => some ⟨s.holder, setPc s.pc t (.locked n false)⟩
    | _ => none
  | .rel t =>
    match s.pc t with
    | .locked _ false => some ⟨none, setPc s.pc t .finished⟩
    | _ => none

/-- Run a trace of events from a state. -/
def lockRun (s : LockSys) : List EngEv → Option LockSys
  | [] => some s
  | e :: tr =>
    match lockStep s e with
    | some s2 => lockRun s2 tr
    | none => none

/-- All tasks idle, lock free. -/
def startState : LockSys := ⟨none, fun _ => .idle⟩

/-- A trace is valid when every event in it is enabled in turn, starting
from `startState`. -/
abbrev ValidTrace (tr : List EngEv) : Prop := (lockRun startState tr).isSome = true

example :
    ValidTrace [.acq 0, .startInv 0, .endInv 0, .rel 0, .acq 1, .startInv 1] := by decide

example : ¬ ValidTrace [.acq 0, .acq 1] := by decide

/-!
## Basic lemmas about the text primitives
-/

@[simp]
lemma pyStartsWith_nil (s : List Char) : pyStartsWith [] s = true := rfl

@[simp]
lemma pyStartsWith_cons_nil (a : Char) (p : List Char) : pyStartsWith (a :: p) [] = false := rfl

@[simp]
lemma pyStartsWith_cons_cons (a b : Char) (p s : List Char) :
    pyStartsWith (a :: p) (b :: s) = ((a == b) && pyStartsWith p s) := rfl

lemma exists_cons_of_startsWith {a : Char} {p s : List Char}
    (h : pyStartsWith (a :: p) s = true) : ∃ t, s = a :: t ∧ pyStartsWith p t = true := by
  cases s with
  | nil => simp at h
  | cons b t =>
    simp only [pyStartsWith_cons_cons, Bool.and_eq_true, beq_iff_eq] at h
    exact ⟨t, by rw [h.1], h.2⟩

lemma pyStartsWith_append (p s : List Char) : pyStartsWith p (p ++ s) = true := by
  induction p with
  | nil => rfl
  | cons a p ih => simp [ih]

lemma isSkipLine_cons (a : Char) (t : List Char) :
    isSkipLine (a :: t) =
      ((('=' : Char) == a) || (('━' : Char) == a) || (('📧' : Char) == a) ||
        (('⚠' : Char) == a)) := by
  simp [isSkipLine]

lemma isStartLine_cons (a : Char) (t : List Char) :
    isStartLine (a :: t) = ((('✉' : Char) == a) || (('✓' : Char) == a)) := by
  simp [isStartLine]

lemma isSkipLine_false_of_head {c : Char} {p l : List Char}
    (h : pyStartsWith (c :: p) l = true)
    (hc : ((('=' : Char) == c) || (('━' : Char) == c) || (('📧' : Char) == c) ||
      (('⚠' : Char) == c)) = false) : isSkipLine l = false := by
  obtain ⟨t, rfl, -⟩ := exists_cons_of_startsWith h
  rw [isSkipLine_cons]; exact hc

lemma isStartLine_false_of_head {c : Char} {p l : List Char}
    (h : pyStartsWith (c :: p) l = true)
    (hc : ((('✉' : Char) == c) || (('✓' : Char) == c)) = false) : isStartLine l = false := by
  obtain ⟨t, rfl, -⟩ := exists_cons_of_startsWith h
  rw [isStartLine_cons]; exact hc

lemma startsWith_false_of_head {c : Char} {p l : List Char}
    (h : pyStartsWith (c :: p) l = true) (d : Char) (q : List Char)
    (hd : (d == c) = false) : pyStartsWith (d :: q) l = false := by
  obtain ⟨t, rfl, -⟩ := exists_cons_of_startsWith h
  simp [hd]

lemma isSkipLine_false_of_start {l : List Char} (h : isStartLine l = true) :
    isSkipLine l = false := by
  simp only [isStartLine, Bool.or_eq_true] at h
  rcases h with h | h
  · exact isSkipLine_false_of_head h (by decide)
  · exact isSkipLine_false_of_head h (by decide)

/-!
## One-step lemmas for `parseAux`, by class of the (trimmed) line
-/

lemma parseAux_nil (e : List EmailRecord) (c : EmailRecord) :
    parseAux e c [] = finalAppend e c := rfl

lemma parseAux_skip {l : List Char} (e : List EmailRecord) (c : EmailRecord)
    (rest : List (List Char)) (h : isSkipLine (pyStrip l) = true) :
    parseAux e c (l :: rest) = parseAux e c rest := by
  simp [parseAux, h]

lemma parseAux_start {l : List Char} (e : List EmailRecord) (c : EmailRecord)
    (rest : List (List Char)) (h : isStartLine (pyStrip l) = true) :
    parseAux e c (l :: rest) =
      parseAux (pushIfNonEmpty e c)
        ⟨some (pyStrip ((pyStrip l).drop 2)), some (pyStartsWith ['✓'] (pyStrip l)),
          none, none, none⟩ rest := by
  simp [parseAux, h, isSkipLine_false_of_start h]

lemma parseAux_from {l : List Char} (e : List EmailRecord) (c : EmailRecord)
    (rest : List (List Char)) (h : pyStartsWith fromPfx (pyStrip l) = true) :
    parseAux e c (l :: rest) =
      parseAux e ⟨c.subject, c.is_read, some (pyStrip ((pyStrip l).drop 5)),
        c.date, c.preview⟩ rest := by
  have h' : pyStartsWith ('F' :: ['r', 'o', 'm', ':']) (pyStrip l) = true := h
  simp [parseAux, h, isSkipLine_false_of_head h' (by decide),
    isStartLine_false_of_head h' (by decide)]

lemma parseAux_date {l : List Char} (e : List EmailRecord) (c : EmailRecord)
    (rest : List (List Char)) (h : pyStartsWith datePfx (pyStrip l) = true) :
    parseAux e c (l :: rest) =
      parseAux e ⟨c.subject, c.is_read, c.sender,
        some (pyStrip ((pyStrip l).drop 5)), c.preview⟩ rest := by
  have h' : pyStartsWith ('D' :: ['a', 't', 'e', ':']) (pyStrip l) = true := h
  have hf : pyStartsWith fromPfx (pyStrip l) = false :=
    startsWith_false_of_head h' 'F' ['r', 'o', 'm', ':'] (by decide)
  simp [parseAux, h, isSkipLine_false_of_head h' (by decide),
    isStartLine_false_of_head h' (by decide), hf]

lemma parseAux_preview {l : List Char} (e : List EmailRecord) (c : EmailRecord)
    (rest : List (List Char)) (h : pyStartsWith prevPfx (pyStrip l) = true) :
    parseAux e c (l :: rest) =
      parseAux e ⟨c.subject, c.is_read, c.sender, c.date,
        some (pyStrip ((pyStrip l).drop 8))⟩ rest := by
  have h' : pyStartsWith ('P' :: ['r', 'e', 'v', 'i', 'e', 'w', ':']) (pyStrip l) = true := h
  have hf : pyStartsWith fromPfx (pyStrip l) = false :=
    startsWith_false_of_head h' 'F' ['r', 'o', 'm', ':'] (by decide)
  have hd : pyStartsWith datePfx (pyStrip l) = false :=
    startsWith_false_of_head h' 'D' ['a', 't', 'e', ':'] (by decide)
  simp [parseAux, h, isSkipLine_false_of_head h' (by decide),
    isStartLine_false_of_head h' (by decide), hf, hd]

lemma parseAux_total {l : List Char} (e : List EmailRecord) (c : EmailRecord)
    (rest : List (List Char)) (h : pyStartsWith totalPfx (pyStrip l) = true) :
    parseAux e c (l :: rest) = finalAppend (pushIfNonEmpty e c) c := by
  have h' : pyStartsWith
      ('T' :: ['O', 'T', 'A', 'L', ' ', 'E', 'M', 'A', 'I', 'L', 'S']) (pyStrip l) = true := h
  have hf : pyStartsWith fromPfx (pyStrip l) = false :=
    startsWith_false_of_head h' 'F' ['r', 'o', 'm', ':'] (by decide)
  have hd : pyStartsWith datePfx (pyStrip l) = false :=
    startsWith_false_of_head h' 'D' ['a', 't', 'e', ':'] (by decide)
  have hp : pyStartsWith prevPfx (pyStrip l) = false :=
    startsWith_false_of_head h' 'P' ['r', 'e', 'v', 'i', 'e', 'w', ':'] (by decide)
  simp [parseAux, h, isSkipLine_false_of_head h' (by decide),
    isStartLine_false_of_head h' (by decide), hf, hd, hp]

/-- A line recognized by some branch of the scanning loop. -/
def recognizedLine (line : List Char) : Bool :=
  isSkipLine line || isStartLine line || pyStartsWith fromPfx line ||
    pyStartsWith datePfx line || pyStartsWith prevPfx line || pyStartsWith totalPfx line

lemma parseAux_unrecognized {l : List Char} (e : List EmailRecord) (c : EmailRecord)
    (rest : List (List Char)) (h : recognizedLine (pyStrip l) = false) :
    parseAux e c (l :: rest) = parseAux e c rest := by
  simp only [recognizedLine, Bool.or_eq_false_iff] at h
  obtain ⟨⟨⟨⟨⟨h1, h2⟩, h3⟩, h4⟩, h5⟩, h6⟩ := h
  simp [parseAux, h1, h2, h3, h4, h5, h6]

lemma finalAppend_pushIfNonEmpty (e : List EmailRecord) (c : EmailRecord) :
    finalAppend (pushIfNonEmpty e c) c = pushIfNonEmpty e c := by
  unfold finalAppend pushIfNonEmpty
  by_cases hc : c = EmailRecord.emptyRec
  · simp [hc]
  · simp [hc]

/-!
## Lemmas about `pyStrip` on the serialized line shapes
-/

lemma ltrim_cons_space (l : List Char) : ltrim (' ' :: l) = ltrim l := rfl

lemma ltrim_cons_keep {c : Char} (h : pyIsSpace c = false) (l : List Char) :
    ltrim (c :: l) = c :: l := by
  simp [ltrim, List.dropWhile_cons, h]

lemma rtrim_append_space {c : Char} (h : pyIsSpace c = true) (l : List Char) :
    rtrim (l ++ [c]) = rtrim l := by
  simp [rtrim, List.dropWhile_cons, h]

lemma rtrim_append_keep {v : List Char} (hne : v ≠ []) (hv : rtrim v = v) (l : List Char) :
    rtrim (l ++ v) = l ++ v := by
  obtain ⟨b, t, hbt⟩ : ∃ b t, v.reverse = b :: t := by
    cases hr : v.reverse with
    | nil => exact absurd (by simpa using congrArg List.reverse hr) hne
    | cons b t => exact ⟨b, t, rfl⟩
  have hb : pyIsSpace b = false := by
    by_contra hb
    have hb' : pyIsSpace b = true := by revert hb; cases pyIsSpace b <;> simp
    have : rtrim v = (List.dropWhile pyIsSpace t).reverse := by
      simp [rtrim, hbt, List.dropWhile_cons, hb']
    have hlen : v.length ≤ t.length := by
      calc v.length = (rtrim v).length := by rw [hv]
        _ = (List.dropWhile pyIsSpace t).length := by rw [this, List.length_reverse]
        _ ≤ t.length := by
            have := List.dropWhile_sublist (p := pyIsSpace) (l := t)
            exact this.length_le
    have : v.length = t.length + 1 := by
      have := congrArg List.length hbt
      simpa using this
    omega
  unfold rtrim
  rw [List.reverse_append, hbt, List.cons_append]
  simp only [List.dropWhile_cons, hb, Bool.false_eq_true, if_false]
  rw [← List.cons_append, ← hbt, ← List.reverse_append, List.reverse_reverse]

lemma dropWhile_eq_self_of_length {p : Char → Bool} {l : List Char}
    (h : (List.dropWhile p l).length = l.length) : List.dropWhile p l = l := by
  cases l with
  | nil => rfl
  | cons a t =>
    cases hp : p a with
    | false => simp [List.dropWhile_cons, hp]
    | true =>
      exfalso
      have hle : (List.dropWhile p t).length ≤ t.length :=
        (List.dropWhile_sublist (p := p) (l := t)).length_le
      rw [List.dropWhile_cons, hp] at h
      simp at h
      omega

lemma ltrim_of_pyStrip_self {v : List Char} (h : pyStrip v = v) : ltrim v = v := by
  have h1 : (ltrim v).length ≤ v.length :=
    (List.dropWhile_sublist (p := pyIsSpace) (l := v)).length_le
  have h2 : (rtrim (ltrim v)).length ≤ (ltrim v).length := by
    unfold rtrim
    have := (List.dropWhile_sublist (p := pyIsSpace) (l := (ltrim v).reverse)).length_le
    simpa using this
  have h3 : (rtrim (ltrim v)).length = v.length := by rw [← pyStrip]; rw [h]
  have h4 : (ltrim v).length = v.length := by omega
  exact dropWhile_eq_self_of_length h4

lemma rtrim_of_pyStrip_self {v : List Char} (h : pyStrip v = v) : rtrim v = v := by
  have := ltrim_of_pyStrip_self h
  unfold pyStrip at h
  rwa [this] at h

/-- Trimming a serialized record-start line, nonempty-subject case. -/
lemma pyStrip_marker_line {m : Char} (hm : pyIsSpace m = false) {s : List Char}
    (hs : pyStrip s = s) (hne : s ≠ []) : pyStrip (m :: ' ' :: s) = m :: ' ' :: s := by
  unfold pyStrip
  rw [ltrim_cons_keep hm]
  have : m :: ' ' :: s = [m, ' '] ++ s := rfl
  rw [this, rtrim_append_keep hne (rtrim_of_pyStrip_self hs)]

/-- Trimming a serialized record-start line, empty-subject case. -/
lemma pyStrip_marker_nil {m : Char} (hm : pyIsSpace m = false) :
    pyStrip (m :: ' ' :: ([] : List Char)) = [m] := by
  unfold pyStrip
  rw [ltrim_cons_keep hm]
  have : ([m, ' '] : List Char) = [m] ++ [' '] := rfl
  rw [this, rtrim_append_space (by decide)]
  simp [rtrim, List.dropWhile_cons, hm]

/-!
## Documented serialization format (spec side, for the round-trip claim)

The spec documents the record block format produced by the AppleScript
templates: a marker-plus-subject line (`✉`/`✓` for unread/read), then
optional `From:` / `Date:` / `Preview:` field lines (indented three
spaces in the observed output), and a closing `TOTAL EMAILS: n` line.
These definitions re-serialize a record sequence in that format; they
follow the spec's words, not the parser, and exist to be compared with
the parser via the round-trip theorem.
-/

/-- A record over the documented fields: subject and read flag are always
present in the documented format; the other three fields are optional. -/
structure SerEmail where
  subject : List Char
  is_read : Bool
  sender : Option (List Char)
  date : Option (List Char)
  preview : Option (List Char)
deriving DecidableEq, Repr

/-- The dictionary the parser is expected to produce for one record. -/
def SerEmail.toRecord (r : SerEmail) : EmailRecord :=
  ⟨some r.subject, some r.is_read, r.sender, r.date, r.preview⟩

/-- A field line of the documented format: three spaces of indentation,
the field tag, one space, the value. -/
def fieldLine (tag v : List Char) : List Char :=
  ' ' :: ' ' :: ' ' :: (tag ++ ' ' :: v)

/-- `'0'..'9'` for a digit value. -/
def digitChar (n : Nat) : Char := Char.ofNat (48 + n % 10)

/-- Decimal digits of `m` (fuel-based so that it reduces by `decide`). -/
def decimalGo : Nat → Nat → List Char
  | 0, _ => []
  | fuel + 1, m =>
    if m < 10 then [digitChar m] else decimalGo fuel (m / 10) ++ [digitChar (m % 10)]

/-- Decimal rendering of a natural number. -/
def decimalChars (n : Nat) : List Char := decimalGo (n + 1) n

/-- Trimming a serialized field line, nonempty-value case: the three
leading spaces go, the rest stays. -/
lemma pyStrip_field_line {tag : List Char} {d : Char} {t : List Char} (htag : tag = d :: t)
    (hd : pyIsSpace d = false) {v : List Char} (hv : pyStrip v = v) (hne : v ≠ []) :
    pyStrip (fieldLine tag v) = tag ++ ' ' :: v := by
  unfold pyStrip fieldLine
  rw [ltrim_cons_space, ltrim_cons_space, ltrim_cons_space, htag, List.cons_append,
    ltrim_cons_keep hd, ← List.cons_append]
  rw [show (d :: t) ++ ' ' :: v = ((d :: t) ++ [' ']) ++ v by simp]
  rw [rtrim_append_keep hne (rtrim_of_pyStrip_self hv)]

/-- Trimming a serialized field line, empty-value case: the trailing
space after the tag goes too. -/
lemma pyStrip_field_line_nil {tag : List Char} {d : Char} {t : List Char} (htag : tag = d :: t)
    (hd : pyIsSpace d = false) (hlast : rtrim tag = tag) :
    pyStrip (fieldLine tag []) = tag := by
  unfold pyStrip fieldLine
  rw [ltrim_cons_space, ltrim_cons_space, ltrim_cons_space, htag, List.cons_append,
    ltrim_cons_keep hd, ← List.cons_append]
  rw [rtrim_append_space (by decide), ← htag, hlast]

/-- The lines serializing one record in the documented format. -/
def serEmailLines (r : SerEmail) : List (List Char) :=
  ((if r.is_read then '✓' else '✉') :: ' ' :: r.subject) ::
    ((match r.sender with | some v => [fieldLine fromPfx v] | none => []) ++
     (match r.date with | some v => [fieldLine datePfx v] | none => []) ++
     (match r.preview with | some v => [fieldLine prevPfx v] | none => []))

/-- The serialized record block: the records' lines followed by the
terminator line `TOTAL EMAILS: n`. -/
def serializeEmails (rs : List SerEmail) : List (List Char) :=
  (rs.map serEmailLines).flatten ++ [totalPfx ++ (':' :: ' ' :: decimalChars rs.length)]

/-- A field value representable on one line of the documented format: no
newline, and no leading or trailing whitespace (the parser trims each
line and each field remainder, so surrounding whitespace cannot round-trip). -/
def wfField (v : List Char) : Prop := pyStrip v = v ∧ '\n' ∉ v

/-- Well-formedness of a record for the documented line format. -/
def wfSer (r : SerEmail) : Prop :=
  wfField r.subject ∧
    (∀ v, r.sender = some v → wfField v) ∧
    (∀ v, r.date = some v → wfField v) ∧
    (∀ v, r.preview = some v → wfField v)

instance : DecidablePred wfField := fun v => by
  unfold wfField; infer_instance

instance : DecidablePred wfSer := fun r => by
  unfold wfSer; infer_instance

example :
    String.mk (unlines (serializeEmails
      [⟨"Hello".data, false, some "a@b.com".data, some "2024-01-01".data, none⟩])) =
      "✉ Hello\n   From: a@b.com\n   Date: 2024-01-01\nTOTAL EMAILS: 1" := by decide

example :
    parse_email_list (String.mk (unlines (serializeEmails
      [⟨"Hello".data, false, some "a@b.com".data, some "2024-01-01".data, none⟩,
       ⟨"Hello".data, false, some "a@b.com".data, some "2024-01-01".data, none⟩]))) =
      [⟨some "Hello".data, some false, some "a@b.com".data, some "2024-01-01".data, none⟩,
       ⟨some "Hello".data, some false, some "a@b.com".data, some "2024-01-01".data, none⟩] := by
  decide

/-!
## Splitting serialized text back into lines
-/

lemma splitNL_no_nl {l : List Char} (h : '\n' ∉ l) : splitNL l = [l] := by
  induction l with
  | nil => rfl
  | cons c rest ih =>
    have hc : ¬ c = '\n' := by
      intro e; exact h (by simp [e])
    have hr : '\n' ∉ rest := fun m => h (List.mem_cons_of_mem _ m)
    simp [splitNL, hc, ih hr]

lemma splitNL_append_nl {l : List Char} (h : '\n' ∉ l) (r : List Char) :
    splitNL (l ++ '\n' :: r) = l :: splitNL r := by
  induction l with
  | nil => simp [splitNL]
  | cons c rest ih =>
    have hc : ¬ c = '\n' := by
      intro e; exact h (by simp [e])
    have hr : '\n' ∉ rest := fun m => h (List.mem_cons_of_mem _ m)
    simp [splitNL, hc, ih hr]

lemma splitNL_unlines : ∀ {ls : List (List Char)}, ls ≠ [] → (∀ m ∈ ls, '\n' ∉ m) →
    splitNL (unlines ls) = ls
  | [], hne, _ => absurd rfl hne
  | [l], _, h => by
    have : unlines [l] = l := rfl
    rw [this, splitNL_no_nl (h l (by simp))]
  | l :: l2 :: ls2, _, h => by
    have : unlines (l :: l2 :: ls2) = l ++ '\n' :: unlines (l2 :: ls2) := rfl
    rw [this, splitNL_append_nl (h l (by simp)),
      splitNL_unlines (by simp) (fun m hm => h m (by simp at hm ⊢; tauto))]

/-!
## Stepping `parseAux` through one serialized record
-/

lemma pyStartsWith_self (p : List Char) : pyStartsWith p p = true := by
  simpa using pyStartsWith_append p []

lemma pyStrip_cons_space (v : List Char) : pyStrip (' ' :: v) = pyStrip v := by
  unfold pyStrip
  rw [ltrim_cons_space]

lemma pyStrip_nil : pyStrip ([] : List Char) = [] := rfl

lemma parseAux_marker_step {m : Char} (hm : ((('✉' : Char) == m) || (('✓' : Char) == m)) = true)
    {s : List Char} (hs : pyStrip s = s) (e : List EmailRecord) (c : EmailRecord)
    (rest : List (List Char)) :
    parseAux e c ((m :: ' ' :: s) :: rest) =
      parseAux (pushIfNonEmpty e c)
        ⟨some s, some (('✓' : Char) == m), none, none, none⟩ rest := by
  have hmsp : pyIsSpace m = false := by
    have hm' : '✉' = m ∨ '✓' = m := by simpa using hm
    rcases hm' with h | h
    · rw [← h]; decide
    · rw [← h]; decide
  by_cases hne : s = []
  · subst hne
    have hline : pyStrip (m :: ' ' :: ([] : List Char)) = [m] := pyStrip_marker_nil hmsp
    rw [parseAux_start e c rest (by rw [hline, isStartLine_cons]; exact hm)]
    simp [hline, pyStrip_nil]
  · have hline : pyStrip (m :: ' ' :: s) = m :: ' ' :: s := pyStrip_marker_line hmsp hs hne
    rw [parseAux_start e c rest (by rw [hline, isStartLine_cons]; exact hm)]
    simp [hline, hs]

lemma parseAux_fieldFrom_step {v : List Char} (hv : pyStrip v = v) (e : List EmailRecord)
    (c : EmailRecord) (rest : List (List Char)) :
    parseAux e c (fieldLine fromPfx v :: rest) =
      parseAux e ⟨c.subject, c.is_read, some v, c.date, c.preview⟩ rest := by
  by_cases hne : v = []
  · subst hne
    have hline : pyStrip (fieldLine fromPfx []) = fromPfx :=
      pyStrip_field_line_nil rfl (by decide) (by decide)
    rw [parseAux_from e c rest (by rw [hline]; exact pyStartsWith_self _)]
    have hnilv : pyStrip (List.drop 5 fromPfx) = [] := by decide
    simp [hline, hnilv]
  · have hline : pyStrip (fieldLine fromPfx v) = fromPfx ++ ' ' :: v :=
      pyStrip_field_line rfl (by decide) hv hne
    rw [parseAux_from e c rest (by rw [hline]; exact pyStartsWith_append _ _)]
    have hdrop : (fromPfx ++ ' ' :: v).drop 5 = ' ' :: v := rfl
    simp [hline, hdrop, pyStrip_cons_space, hv]

lemma parseAux_fieldDate_step {v : List Char} (hv : pyStrip v = v) (e : List EmailRecord)
    (c : EmailRecord) (rest : List (List Char)) :
    parseAux e c (fieldLine datePfx v :: rest) =
      parseAux e ⟨c.subject, c.is_read, c.sender, some v, c.preview⟩ rest := by
  by_cases hne : v = []
  · subst hne
    have hline : pyStrip (fieldLine datePfx []) = datePfx :=
      pyStrip_field_line_nil rfl (by decide) (by decide)
    rw [parseAux_date e c rest (by rw [hline]; exact pyStartsWith_self _)]
    have hnilv : pyStrip (List.drop 5 datePfx) = [] := by decide
    simp [hline, hnilv]
  · have hline : pyStrip (fieldLine datePfx v) = datePfx ++ ' ' :: v :=
      pyStrip_field_line rfl (by decide) hv hne
    rw [parseAux_date e c rest (by rw [hline]; exact pyStartsWith_append _ _)]
    have hdrop : (datePfx ++ ' ' :: v).drop 5 = ' ' :: v := rfl
    simp [hline, hdrop, pyStrip_cons_space, hv]

lemma parseAux_fieldPrev_step {v : List Char} (hv : pyStrip v = v) (e : List EmailRecord)
    (c : EmailRecord) (rest : List (List Char)) :
    parseAux e c (fieldLine prevPfx v :: rest) =
      parseAux e ⟨c.subject, c.is_read, c.sender, c.date, some v⟩ rest := by
  by_cases hne : v = []
  · subst hne
    have hline : pyStrip (fieldLine prevPfx []) = prevPfx :=
      pyStrip_field_line_nil rfl (by decide) (by decide)
    rw [parseAux_preview e c rest (by rw [hline]; exact pyStartsWith_self _)]
    have hnilv : pyStrip (List.drop 8 prevPfx) = [] := by decide
    simp [hline, hnilv]
  · have hline : pyStrip (fieldLine prevPfx v) = prevPfx ++ ' ' :: v :=
      pyStrip_field_line rfl (by decide) hv hne
    rw [parseAux_preview e c rest (by rw [hline]; exact pyStartsWith_append _ _)]
    have hdrop : (prevPfx ++ ' ' :: v).drop 8 = ' ' :: v := rfl
    simp [hline, hdrop, pyStrip_cons_space, hv]

lemma SerEmail.toRecord_ne_empty (r : SerEmail) : r.toRecord ≠ EmailRecord.emptyRec := by
  simp [SerEmail.toRecord, EmailRecord.emptyRec]

lemma read_marker_eq (b : Bool) : (('✓' : Char) == (if b then '✓' else '✉')) = b := by
  cases b <;> decide

lemma parseAux_one_record (r : SerEmail) (hr : wfSer r) (e : List EmailRecord)
    (c : EmailRecord) (rest : List (List Char)) :
    parseAux e c (serEmailLines r ++ rest) = parseAux (pushIfNonEmpty e c) r.toRecord rest := by
  obtain ⟨hsub, hsen, hdat, hpre⟩ := hr
  have hm : ((('✉' : Char) == (if r.is_read then '✓' else '✉')) ||
      (('✓' : Char) == (if r.is_read then '✓' else '✉'))) = true := by
    cases r.is_read <;> decide
  unfold serEmailLines
  rw [List.cons_append, parseAux_marker_step hm hsub.1 e c _, read_marker_eq]
  rcases hsv : r.sender with _ | v <;> rcases hdv : r.date with _ | w <;>
    rcases hpv : r.preview with _ | u <;>
    simp only [hsv, hdv, hpv, List.nil_append, List.append_assoc, List.cons_append,
      List.singleton_append] <;>
    [skip; rw [parseAux_fieldPrev_step (hpre u hpv).1];
     rw [parseAux_fieldDate_step (hdat w hdv).1];
     (rw [parseAux_fieldDate_step (hdat w hdv).1, parseAux_fieldPrev_step (hpre u hpv).1]);
     rw [parseAux_fieldFrom_step (hsen v hsv).1];
     (rw [parseAux_fieldFrom_step (hsen v hsv).1, parseAux_fieldPrev_step (hpre u hpv).1]);
     (rw [parseAux_fieldFrom_step (hsen v hsv).1, parseAux_fieldDate_step (hdat w hdv).1]);
     (rw [parseAux_fieldFrom_step (hsen v hsv).1, parseAux_fieldDate_step (hdat w hdv).1,
       parseAux_fieldPrev_step (hpre u hpv).1])] <;>
    simp [SerEmail.toRecord, hsv, hdv, hpv]

lemma parseAux_serialize_total {tl : List Char}
    (htl : pyStartsWith totalPfx (pyStrip tl) = true) :
    ∀ (rs : List SerEmail) (e : List EmailRecord) (c : EmailRecord), (∀ r ∈ rs, wfSer r) →
      parseAux e c ((rs.map serEmailLines).flatten ++ [tl]) =
        pushIfNonEmpty e c ++ rs.map SerEmail.toRecord
  | [], e, c, _ => by
    simp only [List.map_nil, List.flatten_nil, List.nil_append]
    rw [parseAux_total e c [] htl, finalAppend_pushIfNonEmpty]
    simp
  | r :: rs, e, c, h => by
    simp only [List.map_cons, List.flatten_cons, List.append_assoc]
    rw [parseAux_one_record r (h r (by simp)) e c _]
    rw [parseAux_serialize_total htl rs _ _ (fun x hx => h x (by simp [hx]))]
    have hpush : pushIfNonEmpty (pushIfNonEmpty e c) r.toRecord =
        pushIfNonEmpty e c ++ [r.toRecord] := by
      unfold pushIfNonEmpty
      simp [SerEmail.toRecord_ne_empty r]
    rw [hpush]
    simp

/-!
## The serialized lines are newline-free and the terminator line is total-prefixed
-/

lemma decimalGo_chars : ∀ (fuel m : Nat), ∀ c ∈ decimalGo fuel m,
    pyIsSpace c = false ∧ c ≠ '\n'
  | 0, _, c, hc => by simp [decimalGo] at hc
  | fuel + 1, m, c, hc => by
    have hdigit : ∀ k : Nat, pyIsSpace (digitChar k) = false ∧ digitChar k ≠ '\n' := by
      intro k
      unfold digitChar
      have hk : k % 10 < 10 := Nat.mod_lt _ (by norm_num)
      set j := k % 10 with hj
      interval_cases j <;> exact ⟨by decide, by decide⟩
    unfold decimalGo at hc
    by_cases hm : m < 10
    · simp [hm] at hc
      rw [hc]; exact hdigit m
    · simp [hm] at hc
      rcases hc with hc | hc
      · exact decimalGo_chars fuel (m / 10) c hc
      · rw [hc]; exact hdigit (m % 10)

lemma decimalGo_ne_nil (fuel m : Nat) (hf : 0 < fuel) : decimalGo fuel m ≠ [] := by
  cases fuel with
  | zero => omega
  | succ fuel =>
    unfold decimalGo
    by_cases hm : m < 10 <;> simp [hm]

lemma ltrim_of_forall {l : List Char} (h : ∀ c ∈ l, pyIsSpace c = false) : ltrim l = l := by
  cases l with
  | nil => rfl
  | cons a t => exact ltrim_cons_keep (h a (by simp)) t

lemma rtrim_of_forall {l : List Char} (h : ∀ c ∈ l, pyIsSpace c = false) : rtrim l = l := by
  have h2 : ∀ c ∈ l.reverse, pyIsSpace c = false := by
    intro c hc; exact h c (List.mem_reverse.mp hc)
  have h3 := ltrim_of_forall h2
  unfold ltrim at h3
  unfold rtrim
  rw [h3, List.reverse_reverse]

/-- The serializer's terminator line. -/
def totalLine (n : Nat) : List Char := totalPfx ++ ':' :: ' ' :: decimalChars n

lemma totalLine_starts (n : Nat) : pyStartsWith totalPfx (pyStrip (totalLine n)) = true := by
  have hstrip : pyStrip (totalLine n) = totalLine n := by
    unfold pyStrip totalLine
    rw [show totalPfx ++ ':' :: ' ' :: decimalChars n =
      'T' :: (['O', 'T', 'A', 'L', ' ', 'E', 'M', 'A', 'I', 'L', 'S'] ++
        ':' :: ' ' :: decimalChars n) from rfl]
    rw [ltrim_cons_keep (by decide)]
    rw [show 'T' :: (['O', 'T', 'A', 'L', ' ', 'E', 'M', 'A', 'I', 'L', 'S'] ++
      ':' :: ' ' :: decimalChars n) =
      ('T' :: ['O', 'T', 'A', 'L', ' ', 'E', 'M', 'A', 'I', 'L', 'S'] ++ [':', ' ']) ++
        decimalChars n from by simp]
    rw [rtrim_append_keep (show decimalChars n ≠ [] from decimalGo_ne_nil _ _ (by omega))
      (show rtrim (decimalChars n) = decimalChars n from
        rtrim_of_forall (fun c hc => (decimalGo_chars _ _ c hc).1))]
  rw [hstrip]
  unfold totalLine
  exact pyStartsWith_append _ _

lemma serializeEmails_eq (rs : List SerEmail) :
    serializeEmails rs = (rs.map serEmailLines).flatten ++ [totalLine rs.length] := rfl

lemma nl_not_mem_fieldLine {tag v : List Char} (htag : '\n' ∉ tag) (hv : '\n' ∉ v) :
    '\n' ∉ fieldLine tag v := by
  intro hmem
  simp only [fieldLine, List.mem_cons, List.mem_append] at hmem
  rcases hmem with h | h | h | h | h | h
  · exact absurd h (by decide)
  · exact absurd h (by decide)
  · exact absurd h (by decide)
  · exact htag h
  · exact absurd h (by decide)
  · exact hv h

lemma nl_not_mem_serEmailLines {r : SerEmail} (hr : wfSer r) :
    ∀ m ∈ serEmailLines r, '\n' ∉ m := by
  obtain ⟨hsub, hsen, hdat, hpre⟩ := hr
  have hstart : '\n' ∉ ((if r.is_read then '✓' else '✉') :: ' ' :: r.subject) := by
    intro hmem
    simp only [List.mem_cons] at hmem
    rcases hmem with h | h | h
    · revert h; cases r.is_read <;> decide
    · exact absurd h (by decide)
    · exact hsub.2 h
  intro m hm
  unfold serEmailLines at hm
  rcases List.mem_cons.mp hm with rfl | hm2
  · exact hstart
  · rcases List.mem_append.mp hm2 with hm3 | hm3
    · rcases List.mem_append.mp hm3 with hm4 | hm4
      · rcases hsv : r.sender with _ | v
        · rw [hsv] at hm4; simp at hm4
        · rw [hsv] at hm4
          have hmv : m = fieldLine fromPfx v := by simpa using hm4
          rw [hmv]; exact nl_not_mem_fieldLine (by decide) ((hsen v hsv).2)
      · rcases hdv : r.date with _ | w
        · rw [hdv] at hm4; simp at hm4
        · rw [hdv] at hm4
          have hmw : m = fieldLine datePfx w := by simpa using hm4
          rw [hmw]; exact nl_not_mem_fieldLine (by decide) ((hdat w hdv).2)
    · rcases hpv : r.preview with _ | u
      · rw [hpv] at hm3; simp at hm3
      · rw [hpv] at hm3
        have hmu : m = fieldLine prevPfx u := by simpa using hm3
        rw [hmu]; exact nl_not_mem_fieldLine (by decide) ((hpre u hpv).2)

lemma nl_not_mem_totalLine (n : Nat) : '\n' ∉ totalLine n := by
  intro hmem
  simp only [totalLine, List.mem_append, List.mem_cons] at hmem
  rcases hmem with h | h | h | h
  · exact absurd h (by decide)
  · exact absurd h (by decide)
  · exact absurd h (by decide)
  · exact (decimalGo_chars _ _ _ h).2 rfl

lemma nl_lines_serialize {rs : List SerEmail} (h : ∀ r ∈ rs, wfSer r) :
    ∀ m ∈ serializeEmails rs, '\n' ∉ m := by
  intro m hm
  rw [serializeEmails_eq] at hm
  simp only [List.mem_append, List.mem_flatten, List.mem_map, List.mem_singleton] at hm
  rcases hm with ⟨l, ⟨r, hr, rfl⟩, hml⟩ | hm
  · exact nl_not_mem_serEmailLines (h r hr) m hml
  · rw [hm]; exact nl_not_mem_totalLine _

lemma serializeEmails_ne_nil (rs : List SerEmail) : serializeEmails rs ≠ [] := by
  rw [serializeEmails_eq]
  simp

/-!
## A subjectless record at the head of the accumulator is inert

Records opened by a record-start line always carry a subject, so a
leading subjectless record in the accumulated list can neither be
re-appended nor interfere with the closing membership check.
-/

lemma pushIfNonEmpty_cons (e : List EmailRecord) (x c : EmailRecord) :
    pushIfNonEmpty (x :: e) c = x :: pushIfNonEmpty e c := by
  unfold pushIfNonEmpty
  split <;> simp

lemma finalAppend_cons {x c : EmailRecord} (e : List EmailRecord)
    (hx : x.subject = none) (hc : c.subject ≠ none) :
    finalAppend (x :: e) c = x :: finalAppend e c := by
  have hcx : c ≠ x := fun h => hc (h ▸ hx)
  have hcempty : c ≠ EmailRecord.emptyRec := fun h => hc (by rw [h]; rfl)
  unfold finalAppend
  by_cases hmem : c ∈ e
  · simp [hmem, hcempty]
  · simp [hmem, hcempty, hcx]

lemma parseAux_cons_extra : ∀ (lines : List (List Char)) (e : List EmailRecord)
    (x c : EmailRecord), x.subject = none → c.subject ≠ none →
    parseAux (x :: e) c lines = x :: parseAux e c lines
  | [], e, x, c, hx, hc => finalAppend_cons e hx hc
  | l :: rest, e, x, c, hx, hc => by
    by_cases h1 : isSkipLine (pyStrip l) = true
    · rw [parseAux_skip _ _ _ h1, parseAux_skip _ _ _ h1]
      exact parseAux_cons_extra rest e x c hx hc
    by_cases h2 : isStartLine (pyStrip l) = true
    · rw [parseAux_start _ _ _ h2, parseAux_start _ _ _ h2, pushIfNonEmpty_cons]
      exact parseAux_cons_extra rest _ x _ hx (by simp)
    by_cases h3 : pyStartsWith fromPfx (pyStrip l) = true
    · rw [parseAux_from _ _ _ h3, parseAux_from _ _ _ h3]
      exact parseAux_cons_extra rest e x _ hx hc
    by_cases h4 : pyStartsWith datePfx (pyStrip l) = true
    · rw [parseAux_date _ _ _ h4, parseAux_date _ _ _ h4]
      exact parseAux_cons_extra rest e x _ hx hc
    by_cases h5 : pyStartsWith prevPfx (pyStrip l) = true
    · rw [parseAux_preview _ _ _ h5, parseAux_preview _ _ _ h5]
      exact parseAux_cons_extra rest e x _ hx hc
    by_cases h6 : pyStartsWith totalPfx (pyStrip l) = true
    · rw [parseAux_total _ _ _ h6, parseAux_total _ _ _ h6,
        finalAppend_pushIfNonEmpty, finalAppend_pushIfNonEmpty, pushIfNonEmpty_cons]
    · have hrec : recognizedLine (pyStrip l) = false := by
        simp only [recognizedLine, Bool.or_eq_false_iff]
        exact ⟨⟨⟨⟨⟨by simpa using h1, by simpa using h2⟩, by simpa using h3⟩,
          by simpa using h4⟩, by simpa using h5⟩, by simpa using h6⟩
      rw [parseAux_unrecognized _ _ _ hrec, parseAux_unrecognized _ _ _ hrec]
      exact parseAux_cons_extra rest e x c hx hc

/-!
## Invariants of the lock model
-/

lemma setPc_same (f : Nat → Pc) (t : Nat) (v : Pc) : setPc f t v t = v := by simp [setPc]

lemma setPc_other (f : Nat → Pc) (t : Nat) (v : Pc) {u : Nat} (h : u ≠ t) :
    setPc f t v u = f u := by simp [setPc, h]

/-- Any task inside the `async with` block is the lock's owner. -/
def LockInv (s : LockSys) : Prop := ∀ t n b, s.pc t = .locked n b → s.holder = some t

lemma lockInv_start : LockInv startState := by
  intro t n b h
  simp [startState] at h

lemma lockInv_step {s s2 : LockSys} {e : EngEv} (hInv : LockInv s)
    (h : lockStep s e = some s2) : LockInv s2 := by
  cases e with
  | acq t =>
    simp only [lockStep] at h
    split at h
    case isTrue hcond =>
      injection h with h
      subst h
      intro u n b hu
      by_cases hut : u = t
      · subst hut; rfl
      · simp only [setPc_other _ _ _ hut] at hu
        exact absurd (hInv u n b hu) (by rw [hcond.2]; simp)
    case isFalse => exact absurd h (by simp)
  | startInv t =>
    simp only [lockStep] at h
    cases hpc : s.pc t with
    | locked n b =>
      cases b with
      | false =>
        simp only [hpc] at h
        split at h
        next =>
          injection h with h
          subst h
          intro u m b2 hu
          by_cases hut : u = t
          · subst hut; exact hInv u n false hpc
          · simp only [setPc_other _ _ _ hut] at hu
            exact hInv u m b2 hu
        next => exact absurd h (by simp)
      | true => exact absurd h (by simp [hpc])
    | idle => simp only [hpc] at h; exact absurd h (by simp)
    | finished => simp only [hpc] at h; exact absurd h (by simp)
  | endInv t =>
    simp only [lockStep] at h
    cases hpc : s.pc t with
    | locked n b =>
      cases b with
      | true =>
        simp only [hpc] at h
        injection h with h
        subst h
        intro u m b2 hu
        by_cases hut : u = t
        · subst hut; exact hInv u n true hpc
        · simp only [setPc_other _ _ _ hut] at hu
          exact hInv u m b2 hu
      | false => exact absurd h (by simp [hpc])
    | idle => simp only [hpc] at h; exact absurd h (by simp)
    | finished => simp only [hpc] at h; exact absurd h (by simp)
  | rel t =>
    simp only [lockStep] at h
    cases hpc : s.pc t with
    | locked n b =>
      cases b with
      | false =>
        simp only [hpc] at h
        injection h with h
        subst h
        intro u m b2 hu
        by_cases hut : u = t
        · subst hut
          simp only [setPc_same] at hu
          exact absurd hu (by simp)
        · simp only [setPc_other _ _ _ hut] at hu
          have h1 := hInv u m b2 hu
          have h2 := hInv t n false hpc
          rw [h1] at h2
          injection h2 with h2
          exact absurd h2 hut
      | true => exact absurd h (by simp [hpc])
    | idle => simp only [hpc] at h; exact absurd h (by simp)
    | finished => simp only [hpc] at h; exact absurd h (by simp)

lemma lockInv_run : ∀ (tr : List EngEv) {s s2 : LockSys}, LockInv s →
    lockRun s tr = some s2 → LockInv s2
  | [], s, s2, hInv, h => by
    injection h with h
    rwa [← h]
  | e :: tr, s, s2, hInv, h => by
    unfold lockRun at h
    cases hstep : lockStep s e with
    | none => simp only [hstep] at h; exact absurd h (by simp)
    | some s1 =>
      simp only [hstep] at h
      exact lockInv_run tr (lockInv_step hInv hstep) h

/-- While a task's invocation is open and no `endInv` for it occurs, it
stays open (no other event can change the task's control location). -/
lemma lockRun_stayOpen : ∀ (tr : List EngEv) {s s2 : LockSys} {t n : Nat},
    lockRun s tr = some s2 → s.pc t = .locked n true → EngEv.endInv t ∉ tr →
    s2.pc t = .locked n true
  | [], s, s2, t, n, h, hpc, _ => by
    injection h with h
    rwa [← h]
  | e :: tr, s, s2, t, n, h, hpc, hnot => by
    unfold lockRun at h
    cases hstep : lockStep s e with
    | none => simp only [hstep] at h; exact absurd h (by simp)
    | some s1 =>
      simp only [hstep] at h
      have hnot1 : EngEv.endInv t ∉ tr := fun hm => hnot (List.mem_cons_of_mem _ hm)
      have hs1 : s1.pc t = .locked n true := by
        cases e with
        | acq u =>
          simp only [lockStep] at hstep
          split at hstep
          next hcond =>
            injection hstep with hstep
            subst hstep
            by_cases hut : t = u
            · subst hut
              rw [hpc] at hcond
              exact absurd hcond.1 (by simp)
            · simp only [setPc_other _ _ _ hut]; exact hpc
          next => exact absurd hstep (by simp)
        | startInv u =>
          simp only [lockStep] at hstep
          by_cases hut : t = u
          · subst hut
            simp only [hpc] at hstep
            exact absurd hstep (by simp)
          · cases hpcu : s.pc u with
            | locked m b =>
              cases b with
              | false =>
                simp only [hpcu] at hstep
                split at hstep
                next =>
                  injection hstep with hstep
                  subst hstep
                  simp only [setPc_other _ _ _ hut]; exact hpc
                next => exact absurd hstep (by simp)
              | true => exact absurd hstep (by simp [hpcu])
            | idle => simp only [hpcu] at hstep; exact absurd hstep (by simp)
            | finished => simp only [hpcu] at hstep; exact absurd hstep (by simp)
        | endInv u =>
          have hut : t ≠ u := by
            intro hx
            exact hnot (by rw [hx]; exact List.mem_cons_self _ _)
          simp only [lockStep] at hstep
          cases hpcu : s.pc u with
          | locked m b =>
            cases b with
            | true =>
              simp only [hpcu] at hstep
              injection hstep with hstep
              subst hstep
              simp only [setPc_other _ _ _ hut]; exact hpc
            | false => exact absurd hstep (by simp [hpcu])
          | idle => simp only [hpcu] at hstep; exact absurd hstep (by simp)
          | finished => simp only [hpcu] at hstep; exact absurd hstep (by simp)
        | rel u =>
          simp only [lockStep] at hstep
          by_cases hut : t = u
          · subst hut
            simp only [hpc] at hstep
            exact absurd hstep (by simp)
          · cases hpcu : s.pc u with
            | locked m b =>
              cases b with
              | false =>
                simp only [hpcu] at hstep
                injection hstep with hstep
                subst hstep
                simp only [setPc_other _ _ _ hut]; exact hpc
              | true => exact absurd hstep (by simp [hpcu])
            | idle => simp only [hpcu] at hstep; exact absurd hstep (by simp)
            | finished => simp only [hpcu] at hstep; exact absurd hstep (by simp)
      exact lockRun_stayOpen tr h hs1 hnot1

/-- A `startInv` step is enabled exactly from a between-invocations
location, and opens an invocation. -/
lemma startInv_shape {s s2 : LockSys} {u : Nat}
    (h : lockStep s (.startInv u) = some s2) :
    ∃ m, s.pc u = .locked m false ∧ s2.pc u = .locked (m + 1) true := by
  simp only [lockStep] at h
  cases hpc : s.pc u with
  | locked m b =>
    cases b with
    | false =>
      simp only [hpc] at h
      split at h
      next =>
        injection h with h
        subst h
        exact ⟨m, rfl, setPc_same _ _ _⟩
      next => exact absurd h (by simp)
    | true => exact absurd h (by simp [hpc])
  | idle => simp only [hpc] at h; exact absurd h (by simp)
  | finished => simp only [hpc] at h; exact absurd h (by simp)

lemma lockRun_append (s : LockSys) (l1 l2 : List EngEv) :
    lockRun s (l1 ++ l2) = (lockRun s l1).bind fun s1 => lockRun s1 l2 := by
  induction l1 generalizing s with
  | nil => simp [lockRun]
  | cons e tr ih =>
    simp only [List.cons_append, lockRun]
    cases hstep : lockStep s e with
    | none => simp
    | some s1 => simp [ih]

/-!
## Claim theorems
-/

/-- C1: in the lock model of `run_applescript`, interpreter invocations of
two concurrent calls never overlap: in every valid interleaving, between a
`startInv` of task `t` and a later `startInv` of a different task `u`
there is an `endInv` of `t`, so invocation intervals across concurrent
calls are pairwise disjoint.  The model encodes the source's structure —
the lock is acquired before the retry loop and released only after it, on
every exit path (`async with`), and invocations happen only inside — and
the mutual-exclusion semantics of `asyncio.Lock`; disjointness is derived,
since `startInv` itself carries no lock-related precondition. -/
theorem lock_serializes_invocations (A B C : List EngEv) (t u : Nat)
    (hval : ValidTrace (A ++ (EngEv.startInv t :: (B ++ (EngEv.startInv u :: C)))))
    (htu : t ≠ u) : EngEv.endInv t ∈ B := by
  by_contra hnot
  unfold ValidTrace at hval
  rw [lockRun_append] at hval
  cases hA : lockRun startState A with
  | none => rw [hA] at hval; simp at hval
  | some s1 =>
    rw [hA, Option.some_bind] at hval
    simp only [lockRun] at hval
    cases hstep1 : lockStep s1 (EngEv.startInv t) with
    | none => simp only [hstep1] at hval; simp at hval
    | some s2 =>
      simp only [hstep1] at hval
      rw [lockRun_append] at hval
      cases hB : lockRun s2 B with
      | none => rw [hB] at hval; simp at hval
      | some s3 =>
        rw [hB, Option.some_bind] at hval
        simp only [lockRun] at hval
        cases hstep2 : lockStep s3 (EngEv.startInv u) with
        | none => simp only [hstep2] at hval; simp at hval
        | some s4 =>
          obtain ⟨n, _, hs2pc⟩ := startInv_shape hstep1
          obtain ⟨m, hs3pcu, _⟩ := startInv_shape hstep2
          have hInv1 : LockInv s1 := lockInv_run A lockInv_start hA
          have hInv2 : LockInv s2 := lockInv_step hInv1 hstep1
          have hInv3 : LockInv s3 := lockInv_run B hInv2 hB
          have hs3pct : s3.pc t = .locked (n + 1) true :=
            lockRun_stayOpen B hB hs2pc hnot
          have h1 : s3.holder = some t := hInv3 t (n + 1) true hs3pct
          have h2 : s3.holder = some u := hInv3 u m false hs3pcu
          rw [h1] at h2
          injection h2 with h2
          exact htu h2

/-- Witness for C1 at a concrete valid trace of two tasks. -/
theorem lock_serializes_invocations_witness :
    ValidTrace ([EngEv.acq 0] ++ (EngEv.startInv 0 ::
        ([EngEv.endInv 0, EngEv.rel 0, EngEv.acq 1] ++ (EngEv.startInv 1 :: [])))) ∧
      (0 : Nat) ≠ 1 ∧
      EngEv.endInv 0 ∈ [EngEv.endInv 0, EngEv.rel 0, EngEv.acq 1] :=
  ⟨by decide, by decide,
    lock_serializes_invocations [EngEv.acq 0] [EngEv.endInv 0, EngEv.rel 0, EngEv.acq 1] []
      0 1 (by decide) (by decide)⟩

/-- C4: a first invocation that exits with status 0 yields `Success` with
the trimmed stdout, after exactly one interpreter invocation and no
backoff sleeps. -/
theorem run_success_first_attempt (oracle : Nat → AttemptResult) (out err : String)
    (h : oracle 0 = .completed 0 out err) :
    run_applescript oracle = ⟨.success (pyStripStr out), 1, []⟩ := by
  simp [run_applescript, MAX_RETRIES, runLoop, h]

/-- Witness for C4. -/
theorem run_success_first_attempt_witness :
    (fun _ : Nat => AttemptResult.completed 0 " ok " "warn") 0 =
        AttemptResult.completed 0 " ok " "warn" ∧
      run_applescript (fun _ => AttemptResult.completed 0 " ok " "warn") =
        ⟨.success (pyStripStr " ok "), 1, []⟩ :=
  ⟨rfl, run_success_first_attempt _ " ok " "warn" rfl⟩

/-- C2: only timeouts are retried.  If the attempt after `n` timed-out
attempts (`n < 3`) ends in a non-zero exit, a missing interpreter binary,
or any other unexpected failure, the call fails with the corresponding
classification after exactly `n + 1` invocations — that failing
invocation is the last. -/
theorem run_nontimeout_never_retried (oracle : Nat → AttemptResult) (n : Nat)
    (hn : n < MAX_RETRIES) (hpre : ∀ i, i < n → oracle i = .timedOut) :
    (∀ rc out err, oracle n = .completed rc out err → rc ≠ 0 →
      (run_applescript oracle).outcome = .scriptError rc (scriptErrorText rc err) ∧
        (run_applescript oracle).invocations = n + 1) ∧
    (oracle n = .fileNotFound →
      (run_applescript oracle).outcome = .interpreterMissing missingInterpMsg ∧
        (run_applescript oracle).invocations = n + 1) ∧
    (∀ m, oracle n = .otherError m →
      (∃ msg, (run_applescript oracle).outcome = .unknown msg) ∧
        (run_applescript oracle).invocations = n + 1) := by
  have hn3 : n < 3 := hn
  interval_cases n
  · refine ⟨?_, ?_, ?_⟩
    · intro rc out err h hrc
      simp [run_applescript, MAX_RETRIES, runLoop, h, hrc]
    · intro h
      simp [run_applescript, MAX_RETRIES, runLoop, h]
    · intro m h
      by_cases hc : listContains "AppleScript error".data m.data = true <;>
        simp [run_applescript, MAX_RETRIES, runLoop, h, hc]
  · have h0 := hpre 0 (by norm_num)
    refine ⟨?_, ?_, ?_⟩
    · intro rc out err h hrc
      simp [run_applescript, MAX_RETRIES, runLoop, h0, h, hrc]
    · intro h
      simp [run_applescript, MAX_RETRIES, runLoop, h0, h]
    · intro m h
      by_cases hc : listContains "AppleScript error".data m.data = true <;>
        simp [run_applescript, MAX_RETRIES, runLoop, h0, h, hc]
  · have h0 := hpre 0 (by norm_num)
    have h1 := hpre 1 (by norm_num)
    refine ⟨?_, ?_, ?_⟩
    · intro rc out err h hrc
      simp [run_applescript, MAX_RETRIES, runLoop, h0, h1, h, hrc]
    · intro h
      simp [run_applescript, MAX_RETRIES, runLoop, h0, h1, h]
    · intro m h
      by_cases hc : listContains "AppleScript error".data m.data = true <;>
        simp [run_applescript, MAX_RETRIES, runLoop, h0, h1, h, hc]

/-- Witness for C2: a script error on the second attempt after one
timeout fails with `ScriptError` after exactly two invocations. -/
theorem run_nontimeout_never_retried_witness :
    (1 : Nat) < MAX_RETRIES ∧ (∀ i, i < 1 →
        (fun j : Nat => if j = 0 then AttemptResult.timedOut
          else AttemptResult.completed 1 "" "boom") i = AttemptResult.timedOut) ∧
      ((run_applescript (fun j => if j = 0 then AttemptResult.timedOut
          else AttemptResult.completed 1 "" "boom")).outcome =
        .scriptError 1 (scriptErrorText 1 "boom") ∧
      (run_applescript (fun j => if j = 0 then AttemptResult.timedOut
          else AttemptResult.completed 1 "" "boom")).invocations = 2) :=
  ⟨by decide, by decide,
    (run_nontimeout_never_retried _ 1 (by decide) (by decide)).1 1 "" "boom" rfl (by decide)⟩

lemma runLoop_invocations_le (oracle : Nat → AttemptResult) :
    ∀ (fuel attempt : Nat) (waits : List Nat) (le : String),
      (runLoop oracle fuel attempt waits le).invocations ≤ attempt + fuel
  | 0, attempt, waits, le => by simp [runLoop]
  | fuel + 1, attempt, waits, le => by
    cases h : oracle attempt with
    | completed rc out err =>
      by_cases hrc : rc = 0 <;> simp [runLoop, h, hrc]
    | timedOut =>
      by_cases hlt : attempt < MAX_RETRIES - 1
      · simp only [runLoop, h, hlt, if_true]
        have := runLoop_invocations_le oracle fuel (attempt + 1)
          (waits ++ [INITIAL_BACKOFF_SECONDS * 2 ^ attempt]) timeoutExcText
        omega
      · simp [runLoop, h, hlt]
    | fileNotFound => simp [runLoop, h]
    | otherError m =>
      by_cases hc : listContains "AppleScript error".data m.data = true <;>
        simp [runLoop, h, hc]

lemma runLoop_waits_extend (oracle : Nat → AttemptResult) :
    ∀ (fuel attempt : Nat) (waits : List Nat) (le : String),
      ∃ ex, (runLoop oracle fuel attempt waits le).waits = waits ++ ex
  | 0, attempt, waits, le => ⟨[], by simp [runLoop]⟩
  | fuel + 1, attempt, waits, le => by
    cases h : oracle attempt with
    | completed rc out err =>
      by_cases hrc : rc = 0 <;> exact ⟨[], by simp [runLoop, h, hrc]⟩
    | timedOut =>
      by_cases hlt : attempt < MAX_RETRIES - 1
      · obtain ⟨ex, hex⟩ := runLoop_waits_extend oracle fuel (attempt + 1)
          (waits ++ [INITIAL_BACKOFF_SECONDS * 2 ^ attempt]) timeoutExcText
        refine ⟨INITIAL_BACKOFF_SECONDS * 2 ^ attempt :: ex, ?_⟩
        simp only [runLoop, h, hlt, if_true]
        rw [hex]
        simp
      · exact ⟨[], by simp [runLoop, h, hlt]⟩
    | fileNotFound => exact ⟨[], by simp [runLoop, h]⟩
    | otherError m =>
      by_cases hc : listContains "AppleScript error".data m.data = true <;>
        exact ⟨[], by simp [runLoop, h, hc]⟩

lemma runLoop_last_attempt_waits (oracle : Nat → AttemptResult) (w : List Nat) (le : String) :
    (runLoop oracle 1 2 w le).waits = w := by
  cases h : oracle 2 with
  | completed rc out err => by_cases hrc : rc = 0 <;> simp [runLoop, h, hrc]
  | timedOut => simp [runLoop, h, MAX_RETRIES]
  | fileNotFound => simp [runLoop, h]
  | otherError m =>
    by_cases hc : listContains "AppleScript error".data m.data = true <;> simp [runLoop, h, hc]

/-- C3: timeout handling of `run_applescript`.  At most 3 interpreter
invocations ever happen; after a first timed-out attempt the engine
sleeps 2 seconds, after a second 4 seconds; if all three attempts time
out the call fails as `Timeout` after exactly 3 invocations with the
fixed message — which states Apple Mail may be unresponsive rather than
echoing the raw timeout text. -/
theorem run_timeout_retry_policy (oracle : Nat → AttemptResult) :
    (run_applescript oracle).invocations ≤ MAX_RETRIES ∧
    (oracle 0 = .timedOut → ∃ w, (run_applescript oracle).waits = 2 :: w) ∧
    (oracle 0 = .timedOut → oracle 1 = .timedOut →
      (run_applescript oracle).waits = [2, 4]) ∧
    (oracle 0 = .timedOut → oracle 1 = .timedOut → oracle 2 = .timedOut →
      run_applescript oracle = ⟨.timeoutFailure timeoutFinalMsg, 3, [2, 4]⟩) ∧
    listContains "may be unresponsive".data timeoutFinalMsg.data = true := by
  refine ⟨?_, ?_, ?_, ?_, by decide⟩
  · have := runLoop_invocations_le oracle MAX_RETRIES 0 [] "None"
    simpa [run_applescript] using this
  · intro h0
    have hstep : run_applescript oracle = runLoop oracle 2 1 [2] timeoutExcText := by
      simp [run_applescript, MAX_RETRIES, runLoop, h0, INITIAL_BACKOFF_SECONDS]
    obtain ⟨ex, hex⟩ := runLoop_waits_extend oracle 2 1 [2] timeoutExcText
    exact ⟨ex, by rw [hstep, hex]; simp⟩
  · intro h0 h1
    have hstep : run_applescript oracle = runLoop oracle 1 2 [2, 4] timeoutExcText := by
      simp [run_applescript, MAX_RETRIES, runLoop, h0, h1, INITIAL_BACKOFF_SECONDS]
    rw [hstep, runLoop_last_attempt_waits]
  · intro h0 h1 h2
    simp [run_applescript, MAX_RETRIES, runLoop, h0, h1, h2, INITIAL_BACKOFF_SECONDS]

/-- Witness for C3 with every attempt timing out. -/
theorem run_timeout_retry_policy_witness :
    ((fun _ : Nat => AttemptResult.timedOut) 0 = AttemptResult.timedOut) ∧
      run_applescript (fun _ => AttemptResult.timedOut) =
        ⟨.timeoutFailure timeoutFinalMsg, 3, [2, 4]⟩ :=
  ⟨rfl, ((run_timeout_retry_policy (fun _ => AttemptResult.timedOut)).2.2.2.1) rfl rfl rfl⟩

lemma runLoop_no_fallthrough (oracle : Nat → AttemptResult) :
    ∀ (fuel attempt : Nat) (waits : List Nat) (le : String), 0 < fuel →
      attempt + fuel = MAX_RETRIES →
      ((runLoop oracle fuel attempt waits le).outcome).isFallback = false
  | 0, attempt, waits, le, hf, _ => absurd hf (by omega)
  | fuel + 1, attempt, waits, le, _, hsum => by
    cases h : oracle attempt with
    | completed rc out err =>
      by_cases hrc : rc = 0 <;> simp [runLoop, h, hrc, Outcome.isFallback]
    | timedOut =>
      by_cases hlt : attempt < MAX_RETRIES - 1
      · have hfuel : 0 < fuel := by
          unfold MAX_RETRIES at hsum hlt
          omega
        simp only [runLoop, h, hlt, if_true]
        exact runLoop_no_fallthrough oracle fuel (attempt + 1) _ _ hfuel
          (by unfold MAX_RETRIES at hsum ⊢; omega)
      · simp [runLoop, h, hlt, Outcome.isFallback]
    | fileNotFound => simp [runLoop, h, Outcome.isFallback]
    | otherError m =>
      by_cases hc : listContains "AppleScript error".data m.data = true <;>
        simp [runLoop, h, hc, Outcome.isFallback]

/-- C10: the post-loop fallback `raise` ("Should not reach here") at the
end of `run_applescript` is unreachable: whatever each attempt does, every
call returns from inside the loop with `Success` or one of the four
classified failures, never with the fallback outcome. -/
theorem run_fallback_unreachable (oracle : Nat → AttemptResult) :
    ((run_applescript oracle).outcome).isFallback = false :=
  runLoop_no_fallthrough oracle MAX_RETRIES 0 [] "None" (by decide) (by decide)

/-- C5: a line whose trimmed form begins with `TOTAL EMAILS` stops the
scan: the open record, if any, is appended exactly once (the result is
the accumulated list extended by at most one copy of the open record),
and the lines after the terminator contribute nothing — the result does
not depend on them.  The concrete example from the spec parses to exactly
one fully populated record. -/
theorem parse_terminator_stops :
    (∀ (e : List EmailRecord) (c : EmailRecord) (term : List Char) (rest : List (List Char)),
      pyStartsWith totalPfx (pyStrip term) = true →
      parseAux e c (term :: rest) = pushIfNonEmpty e c) ∧
    parse_email_list "✉ Hello\n   From: a@b.com\n   Date: 2024-01-01\nTOTAL EMAILS: 1\n" =
      [⟨some "Hello".data, some false, some "a@b.com".data, some "2024-01-01".data, none⟩] := by
  constructor
  · intro e c term rest h
    rw [parseAux_total e c rest h, finalAppend_pushIfNonEmpty]
  · decide

/-- Witness for C5: a terminator with an open record and a junk suffix. -/
theorem parse_terminator_stops_witness :
    pyStartsWith totalPfx (pyStrip "TOTAL EMAILS: 2".data) = true ∧
      parseAux [⟨some ['A'], some false, none, none, none⟩]
        ⟨some ['B'], some true, none, none, none⟩
        ("TOTAL EMAILS: 2".data :: ["✉ junk".data]) =
        [⟨some ['A'], some false, none, none, none⟩, ⟨some ['B'], some true, none, none, none⟩] :=
  ⟨by decide, by
    rw [parse_terminator_stops.1 _ _ _ _ (by decide)]
    decide⟩

/-- C6: evaluation of `parse_email_list` at the failing input
`"✉ A\n✉ A"`: two record-start lines with equal subject and flag yield
only one record — the closing `current_email not in emails` check drops
the second — where the claim (and the spec's append-once-per-record
intent) requires two. -/
theorem parse_duplicate_record_dropped :
    parse_email_list "✉ A\n✉ A" = [⟨some ['A'], some false, none, none, none⟩] ∧
      (parse_email_list "✉ A\n✉ A").length = 1 := by
  decide

/-- C7 counterexample: a `From:` line before any record-start line is not
ignored — it is attached to the initially empty record, which is emitted
without a subject, so the parse differs from the same input with the line
removed. -/
theorem parse_orphan_field_counterexample :
    parse_email_list "From: a@b.com\n✉ A" =
        [⟨none, none, some "a@b.com".data, none, none⟩,
         ⟨some ['A'], some false, none, none, none⟩] ∧
      parse_email_list "From: a@b.com\n✉ A" ≠ parse_email_list "✉ A" := by
  decide

/-- C7 amended: a field-prefix line (`From:`, `Date:` or `Preview:`)
occurring before any record-start line sets the corresponding field on
the implicit empty open record; when a record-start line follows, the
result is that subjectless one-field record followed by the parse of the
remaining lines. -/
theorem parse_orphan_field_amended (l0 l1 : List Char) (rest : List (List Char))
    (hstart : isStartLine (pyStrip l1) = true) :
    (pyStartsWith fromPfx (pyStrip l0) = true →
      parseLinesTop (l0 :: l1 :: rest) =
        ⟨none, none, some (pyStrip ((pyStrip l0).drop 5)), none, none⟩ ::
          parseLinesTop (l1 :: rest)) ∧
    (pyStartsWith datePfx (pyStrip l0) = true →
      parseLinesTop (l0 :: l1 :: rest) =
        ⟨none, none, none, some (pyStrip ((pyStrip l0).drop 5)), none⟩ ::
          parseLinesTop (l1 :: rest)) ∧
    (pyStartsWith prevPfx (pyStrip l0) = true →
      parseLinesTop (l0 :: l1 :: rest) =
        ⟨none, none, none, none, some (pyStrip ((pyStrip l0).drop 8))⟩ ::
          parseLinesTop (l1 :: rest)) := by
  refine ⟨fun hf => ?_, fun hd => ?_, fun hp => ?_⟩
  · unfold parseLinesTop
    rw [parseAux_from _ _ _ hf, parseAux_start _ _ _ hstart, parseAux_start _ _ _ hstart]
    rw [show pushIfNonEmpty [] EmailRecord.emptyRec = [] from by decide]
    rw [show pushIfNonEmpty []
        (⟨EmailRecord.emptyRec.subject, EmailRecord.emptyRec.is_read,
          some (pyStrip ((pyStrip l0).drop 5)), EmailRecord.emptyRec.date,
          EmailRecord.emptyRec.preview⟩ : EmailRecord) =
        [⟨none, none, some (pyStrip ((pyStrip l0).drop 5)), none, none⟩] from by
      simp [pushIfNonEmpty, EmailRecord.emptyRec]]
    exact parseAux_cons_extra rest [] _ _ rfl (by simp)
  · unfold parseLinesTop
    rw [parseAux_date _ _ _ hd, parseAux_start _ _ _ hstart, parseAux_start _ _ _ hstart]
    rw [show pushIfNonEmpty [] EmailRecord.emptyRec = [] from by decide]
    rw [show pushIfNonEmpty []
        (⟨EmailRecord.emptyRec.subject, EmailRecord.emptyRec.is_read,
          EmailRecord.emptyRec.sender, some (pyStrip ((pyStrip l0).drop 5)),
          EmailRecord.emptyRec.preview⟩ : EmailRecord) =
        [⟨none, none, none, some (pyStrip ((pyStrip l0).drop 5)), none⟩] from by
      simp [pushIfNonEmpty, EmailRecord.emptyRec]]
    exact parseAux_cons_extra rest [] _ _ rfl (by simp)
  · unfold parseLinesTop
    rw [parseAux_preview _ _ _ hp, parseAux_start _ _ _ hstart, parseAux_start _ _ _ hstart]
    rw [show pushIfNonEmpty [] EmailRecord.emptyRec = [] from by decide]
    rw [show pushIfNonEmpty []
        (⟨EmailRecord.emptyRec.subject, EmailRecord.emptyRec.is_read,
          EmailRecord.emptyRec.sender, EmailRecord.emptyRec.date,
          some (pyStrip ((pyStrip l0).drop 8))⟩ : EmailRecord) =
        [⟨none, none, none, none, some (pyStrip ((pyStrip l0).drop 8))⟩] from by
      simp [pushIfNonEmpty, EmailRecord.emptyRec]]
    exact parseAux_cons_extra rest [] _ _ rfl (by simp)

/-- Witness for the amended C7. -/
theorem parse_orphan_field_amended_witness :
    isStartLine (pyStrip "✉ A".data) = true ∧
      pyStartsWith fromPfx (pyStrip "From: a@b.com".data) = true ∧
      parseLinesTop ["From: a@b.com".data, "✉ A".data] =
        ⟨none, none, some (pyStrip ((pyStrip "From: a@b.com".data).drop 5)), none, none⟩ ::
          parseLinesTop ["✉ A".data] :=
  ⟨by decide, by decide,
    (parse_orphan_field_amended "From: a@b.com".data "✉ A".data [] (by decide)).1 (by decide)⟩

/-- C8: the parser is a total function (it is defined for every input
string and returns a finite list), and a line recognized by no branch —
non-blank, not a decorative glyph, not a record start, not a field prefix,
not the terminator — contributes nothing: the scan state (accumulated
records and open record) passes through unchanged. -/
theorem parse_unrecognized_inert (e : List EmailRecord) (c : EmailRecord)
    (l : List Char) (rest : List (List Char))
    (hnr : recognizedLine (pyStrip l) = false) :
    parseAux e c (l :: rest) = parseAux e c rest :=
  parseAux_unrecognized e c rest hnr

/-- Witness for C8 on a garbled non-blank line. -/
theorem parse_unrecognized_inert_witness :
    recognizedLine (pyStrip "garbled ??? line".data) = false ∧
      parseAux [] ⟨some ['A'], some false, none, none, none⟩
        ["garbled ??? line".data, "Date: d".data] =
      parseAux [] ⟨some ['A'], some false, none, none, none⟩ ["Date: d".data] :=
  ⟨by decide,
    parse_unrecognized_inert [] ⟨some ['A'], some false, none, none, none⟩
      "garbled ??? line".data ["Date: d".data] (by decide)⟩

/-- C9: round trip.  Serializing any sequence of records in the
documented line format (marker-plus-subject line, indented field lines,
`TOTAL EMAILS` terminator) and parsing the resulting text yields exactly
the original records, in order.  The fields must be representable on one
line of that format: no embedded newline and no leading or trailing
whitespace (the parser trims each line, so such whitespace cannot survive
any serialization in this format). -/
theorem parse_serialize_round_trip (rs : List SerEmail) (h : ∀ r ∈ rs, wfSer r) :
    parse_email_list (String.mk (unlines (serializeEmails rs))) =
      rs.map SerEmail.toRecord := by
  unfold parse_email_list parseLinesTop
  rw [show (String.mk (unlines (serializeEmails rs))).data =
    unlines (serializeEmails rs) from rfl]
  rw [splitNL_unlines (serializeEmails_ne_nil rs) (nl_lines_serialize h)]
  rw [serializeEmails_eq]
  rw [parseAux_serialize_total (totalLine_starts rs.length) rs [] EmailRecord.emptyRec h]
  simp [pushIfNonEmpty]

/-- Witness for C9 on a two-record sequence exercising present and absent
optional fields and both read flags. -/
theorem parse_serialize_round_trip_witness :
    (∀ r ∈ ([⟨"Hello".data, false, some "a@b.com".data, some "2024-01-01".data, none⟩,
        ⟨"Re: hi".data, true, none, none, some "see you".data⟩] : List SerEmail), wfSer r) ∧
      parse_email_list (String.mk (unlines (serializeEmails
        [⟨"Hello".data, false, some "a@b.com".data, some "2024-01-01".data, none⟩,
         ⟨"Re: hi".data, true, none, none, some "see you".data⟩]))) =
      [⟨some "Hello".data, some false, some "a@b.com".data, some "2024-01-01".data, none⟩,
       ⟨some "Re: hi".data, some true, none, none, some "see you".data⟩] :=
  ⟨by decide, by
    rw [parse_serialize_round_trip _ (by decide)]
    decide⟩
